import Mathlib

/-!
Shallow embedding of the `kcl-thesis` repository: a portfolio-rebalancing
simulator (`portfolio.py`, `stock.py`) and an SEC-filing data extractor
(`data.py`).

Numbers are modelled as rationals (`ℚ`); Python's `round(x, 2)` is modelled
as rounding `100 * x` to the nearest integer (ties away from the lower value,
i.e. half-up; none of the concrete inputs used below sit on a tie, so the
difference from Python's float banker's rounding is immaterial).
Python `math.floor` is `Int.floor`.  Python dictionaries keyed by strings are
modelled as insertion-ordered association lists; a raised exception is
modelled by an `Option` result (`none` = the exception escapes).
-/

/-- Python `round(x, 2)`: round to 2 decimal places. -/
def round2 (x : ℚ) : ℚ := (round (100 * x) : ℤ) / 100

/-- Python dict assignment `d[k] = v` on an insertion-ordered association
list: overwrite the existing entry for `k`, else append a new one. -/
def dictSet {β : Type} (l : List (String × β)) (k : String) (v : β) :
    List (String × β) :=
  if l.any (fun p => p.1 == k) then
    l.map (fun p => if p.1 == k then (k, v) else p)
  else
    l ++ [(k, v)]

/-- Python dict lookup `d[k]` (as an `Option`). -/
def dictGet {β : Type} (l : List (String × β)) (k : String) : Option β :=
  (l.find? (fun p => p.1 == k)).map (fun p => p.2)

/-- `stock.py` — class `Stock`.  `position` is the stock's market value,
`trades` the per-stock trade log (date ↦ (price, signed quantity delta)). -/
structure Stock where
  ticker : String
  price : ℚ
  quantity : ℤ
  position : ℚ
  trades : List (String × ℚ × ℤ)
deriving Repr, DecidableEq

/-- `Stock.__init__`: `self.position = round(price * quantity, 2)`. -/
def Stock.init (ticker : String) (price : ℚ) (quantity : ℤ) : Stock :=
  { ticker := ticker, price := price, quantity := quantity,
    position := round2 (price * (quantity : ℚ)), trades := [] }

/-- `Stock.update_price`: `self.position = new_price * self.quantity`
(note: no rounding, unlike `__init__`). -/
def Stock.update_price (s : Stock) (new_price : ℚ) : Stock :=
  { s with price := new_price, position := new_price * (s.quantity : ℚ) }

/-- `Stock.update_quantity`: `self.position = new_quantity * self.price`
(note: no rounding, unlike `__init__`). -/
def Stock.update_quantity (s : Stock) (new_quantity : ℤ) : Stock :=
  { s with quantity := new_quantity, position := (new_quantity : ℚ) * s.price }

/-- `portfolio.py` — class `Portfolio` (the fields touched by the
rebalancing operations; `price_history` is passed explicitly to
`update_prices` as a ticker-indexed price function). -/
structure Portfolio where
  cash : ℚ
  worth : ℚ
  positions : List Stock
  worth_history : List (String × ℚ)
  trades : List (String × List (String × ℚ × ℤ))
  date : String
deriving Repr, DecidableEq

namespace Portfolio

/-- `Portfolio.MAX = 0.5` — the 50% weight ceiling. -/
def MAX : ℚ := 1 / 2

/-- `Portfolio.MIN = 0.05` — the 5% weight floor. -/
def MIN : ℚ := 1 / 20

/-- The `for ticker, stock in self.positions.items(): worth += stock.position`
accumulation inside `update_worth`. -/
def sumPositions (pf : Portfolio) : ℚ :=
  pf.positions.foldl (fun acc s => acc + s.position) 0

/-- `Portfolio.update_worth`: `self.worth = round(worth + self.cash, 2)` and
`self.worth_history[self.date] = {'worth': self.worth}`. -/
def update_worth (pf : Portfolio) : Portfolio :=
  let w := round2 (sumPositions pf + pf.cash)
  { pf with worth := w, worth_history := dictSet pf.worth_history pf.date w }

/-- `Portfolio.update_prices`: refresh every position's price from the day's
price series, then `update_worth`.  The source branches on whether more than
one position is held only because the external price table changes shape
(keyed table vs. flat series) in the single-ticker case; with the day's
prices supplied as a ticker-indexed function the two branches coincide. -/
def update_prices (pf : Portfolio) (new_price : String → ℚ) : Portfolio :=
  update_worth
    { pf with
      positions := pf.positions.map (fun s => s.update_price (new_price s.ticker)) }

/-- `Portfolio.buy_stock(stock)`.  The Python argument `stock` is an alias
of the entry of `self.positions` being traded; its in-place mutation is
rendered by replacing the entry with that ticker. -/
def buy_stock (pf : Portfolio) (s : Stock) : Portfolio :=
  -- check if cash available
  if s.price ≤ pf.cash then
    -- max quantity for 50% weight
    let mx : ℤ := ⌊pf.worth * MAX / s.price⌋
    -- amount of new quantity, adjusted if it would exceed the ceiling
    let bought : ℤ :=
      if mx < ⌊pf.cash / s.price⌋ + s.quantity then mx - s.quantity
      else ⌊pf.cash / s.price⌋
    let total : ℤ := bought + s.quantity
    let s' : Stock :=
      { s.update_quantity total with
        trades := dictSet s.trades pf.date (s.price, bought) }
    { pf with
      positions := pf.positions.map (fun x => if x.ticker == s.ticker then s' else x),
      cash := round2 (pf.cash - s.price * (bought : ℚ)),
      trades := dictSet pf.trades pf.date
        (dictSet ((dictGet pf.trades pf.date).getD []) s.ticker (s.price, bought)) }
  else pf

/-- `Portfolio.sell_stock(stock)`; the `stock` argument as in `buy_stock`. -/
def sell_stock (pf : Portfolio) (s : Stock) : Portfolio :=
  -- target quantity for 5% weight
  let target : ℤ := ⌊pf.worth * MIN / s.price⌋
  if s.quantity ≤ target then pf
  else
    let sold : ℤ := s.quantity - target
    let s' : Stock :=
      { s.update_quantity target with
        trades := dictSet s.trades pf.date (s.price, -sold) }
    { pf with
      positions := pf.positions.map (fun x => if x.ticker == s.ticker then s' else x),
      cash := round2 (pf.cash + s.price * (sold : ℚ)),
      trades := dictSet pf.trades pf.date
        (dictSet ((dictGet pf.trades pf.date).getD []) s.ticker (s.price, -sold)) }

/-- Lookup of a position by ticker (`self.positions[ticker]`). -/
def getPos (pf : Portfolio) (tk : String) : Option Stock :=
  pf.positions.find? (fun s => s.ticker == tk)

end Portfolio

/-- `data.py` — result of parsing one numeric cell.  Python distinguishes
`int(...)` results from `float(...)` results; so do we. -/
inductive PyNum where
  | i : ℤ → PyNum
  | f : ℚ → PyNum
deriving Repr, DecidableEq

/-- The per-filing metric dictionary built by `Data.process_quarterly`:
an entry `(term, none)` is the explicit `data[term] = None` null marker. -/
abbrev Metrics := List (String × Option PyNum)

/-- One row of the filing-index table built by `Data.get_metadata`
(the columns `process_filings` consumes). -/
structure FilingRecord where
  form : String
  reportDate : String
  accessionNumber : String
deriving Repr, DecidableEq

namespace Data

/-- `Data.OIE_TERMS` — metric name ↦ label variants. -/
def OIE_TERMS : List (String × List String) :=
  [("revenue", ["revenue", "total revenue", "net sale", "total net sales"]),
   ("gross profit", ["gross profit", "gross margin"]),
   ("operating income",
    ["operating income", "income from operations", "loss from operations"]),
   ("net income", ["net income", "net income (loss)", "net loss"]),
   ("eps", ["basic", "basic earnings per share"])]

/-- Digit string to number (caller guarantees the characters are digits). -/
def digitsToNat (l : List Char) : ℕ :=
  l.foldl (fun acc c => 10 * acc + (c.toNat - 48)) 0

/-- A non-empty all-digit character run, or failure. -/
def parseDigits (l : List Char) : Option ℕ :=
  if !l.isEmpty && l.all (fun c => c.isDigit) then some (digitsToNat l) else none

/-- Python `int(s)` on the strings this code feeds it: an optional sign
followed by digits; anything else raises (`none`). -/
def int_of_chars (l : List Char) : Option ℤ :=
  match l with
  | '-' :: rest => (parseDigits rest).map (fun n => -(n : ℤ))
  | '+' :: rest => (parseDigits rest).map (fun n => (n : ℤ))
  | _ => (parseDigits l).map (fun n => (n : ℤ))

/-- Split a character list at every occurrence of `sep` (Python
`s.split(sep)` — the resulting parts never contain `sep`). -/
def splitOnChar (sep : Char) : List Char → List (List Char)
  | [] => [[]]
  | c :: rest =>
    match splitOnChar sep rest with
    | [] => [[]]
    | cur :: parts =>
      if c == sep then [] :: cur :: parts else (c :: cur) :: parts

/-- Unsigned decimal literal `intpart[.fracpart]` (Python `float` accepts
`"1."` and `".5"`; at least one digit overall, and at most one dot). -/
def parseUnsignedFloat (t : List Char) : Option ℚ :=
  match splitOnChar '.' t with
  | [ip] =>
    if !ip.isEmpty && ip.all (fun c => c.isDigit) then
      some ((digitsToNat ip : ℚ))
    else none
  | [ip, fp] =>
    if ip.isEmpty && fp.isEmpty then none
    else if ip.all (fun c => c.isDigit) && fp.all (fun c => c.isDigit) then
      some ((digitsToNat ip : ℚ) + (digitsToNat fp : ℚ) / (10 : ℚ) ^ fp.length)
    else none
  | _ => none

/-- Python `float(s)` on the decimal literals this code feeds it (exponent
and special forms never occur in these cells); failure raises (`none`). -/
def float_of_chars (l : List Char) : Option ℚ :=
  match l with
  | '-' :: rest => (parseUnsignedFloat rest).map (fun q => -q)
  | '+' :: rest => parseUnsignedFloat rest
  | _ => parseUnsignedFloat l

/-- `Data.NEGATIVE_PATTERN.sub('', value)`: drop `(`, `)` and `,`. -/
def stripNegChars (l : List Char) : List Char :=
  l.filter (fun c => !(c == '(' || c == ')' || c == ','))

/-- `Data.POSITIVE_PATTERN.sub('', value)`: drop `,`. -/
def stripCommas (l : List Char) : List Char :=
  l.filter (fun c => !(c == ','))

/-- The value-formatting step of `Data.process_quarterly` (lines 148–153):
`value = -float(NEGATIVE_PATTERN.sub('', value)) if '.' in value else
int(NEGATIVE_PATTERN.sub('', value))` when `'(' in value`, else
`value = float(POSITIVE_PATTERN.sub('', value)) if '.' in value else
int(POSITIVE_PATTERN.sub('', value))`.  Note the unary minus in the source
applies only to the `float` branch.  `none` = the `except` path. -/
def parse_value (value : String) : Option PyNum :=
  if value.toList.contains '(' then
    if value.toList.contains '.' then
      (float_of_chars (stripNegChars value.toList)).map (fun q => PyNum.f (-q))
    else
      (int_of_chars (stripNegChars value.toList)).map PyNum.i
  else
    if value.toList.contains '.' then
      (float_of_chars (stripCommas value.toList)).map PyNum.f
    else
      (int_of_chars (stripCommas value.toList)).map PyNum.i

/-- Does `needle` occur as a contiguous run starting at some position of
`hay`? -/
def listContainsSub (needle : List Char) : List Char → Bool
  | [] => needle.isEmpty
  | c :: rest => needle.isPrefixOf (c :: rest) || listContainsSub needle rest

/-- Python `word in key` — substring containment. -/
def containsSub (word key : String) : Bool :=
  listContainsSub word.toList key.toList

/-- The body of `for term, variations in Data.OIE_TERMS.items()` for one
row (cells already extracted, case-folded, `'$'`/empty cells dropped):
record `parse_value cells[1]` under `term` if some variant occurs in
`cells[0]` and `term` is not yet recorded (`term not in data.keys()`);
a failed parse is recorded as the explicit null `none`. -/
def step (cells : List String) (d : Metrics) (tv : String × List String) : Metrics :=
  if tv.2.any (fun w => containsSub w (cells.headD "")) then
    if d.any (fun p => p.1 == tv.1) then d
    else d ++ [(tv.1, parse_value (cells.getD 1 ""))]
  else d

/-- One `for row in table.find_all('tr')` iteration of
`Data.process_quarterly`: skip rows with fewer than 2 surviving cells,
else run the term loop. -/
def process_cells (d : Metrics) (cells : List String) : Metrics :=
  if cells.length < 2 then d else OIE_TERMS.foldl (step cells) d

/-- The row loop of `Data.process_quarterly` over a located statement
table, starting from the empty `data = {}`. -/
def process_rows (rows : List (List String)) : Metrics :=
  rows.foldl process_cells []

/-- `Data.get_cik`: `df.loc[df['ticker'] == self.ticker, 'cik_str'].iat[0]`
— the `cik_str` of the first row whose `ticker` column equals the ticker;
`none` models the `IndexError` (a `LookupError`) raised by `.iat[0]` on an
empty selection. -/
def get_cik (ticker : String) (table : List (String × String)) : Option String :=
  ((table.filter (fun p => p.1 == ticker)).head?).map (fun p => p.2)

/-- pandas `DataFrame.tail n`: the last `n` rows. -/
def lastN {α : Type} (n : ℕ) (l : List α) : List α := l.drop (l.length - n)

/-- The filtering step of `Data.get_metadata` after a successful fetch:
keep only `10-K`/`10-Q` rows, reverse the (newest-first) order
(`sort_index(ascending=False)` on the reset index), then `tail(25)`. -/
def filter_metadata (l : List FilingRecord) : List FilingRecord :=
  lastN 25 ((l.filter (fun r => r.form == "10-K" || r.form == "10-Q")).reverse)

/-- `Data.process_filings`: `for idx in range(2)` over `self.metadata`,
storing the parsed quarterly data keyed by report date and skipping `10-K`
rows.  Indexing `self.metadata.iloc[idx]` out of bounds raises `IndexError`,
modelled by `none`; `parse` stands for `self.process_quarterly`. -/
def process_filings {α : Type} (parse : String → α) (metadata : List FilingRecord) :
    Option (List (String × α)) := do
  let r0 ← metadata.get? 0
  let d0 : List (String × α) :=
    if r0.form == "10-Q" then dictSet [] r0.reportDate (parse r0.accessionNumber)
    else []
  let r1 ← metadata.get? 1
  let d1 : List (String × α) :=
    if r1.form == "10-Q" then dictSet d0 r1.reportDate (parse r1.accessionNumber)
    else d0
  pure d1

end Data

namespace Data

/-- Does a row (its surviving cells) trigger a metric with variant list
`vars`?  Mirrors the guards of the row loop: at least 2 cells, and some
variant occurs in the label cell. -/
def rowMatch (vars : List String) (cells : List String) : Bool :=
  !decide (cells.length < 2) && vars.any (fun w => containsSub w (cells.headD ""))

end Data

/-- The bought quantity computed inside `buy_stock` (after the ceiling
adjustment). -/
def boughtQty (pf : Portfolio) (s : Stock) : ℤ :=
  if ⌊pf.worth * Portfolio.MAX / s.price⌋ < ⌊pf.cash / s.price⌋ + s.quantity
  then ⌊pf.worth * Portfolio.MAX / s.price⌋ - s.quantity
  else ⌊pf.cash / s.price⌋

/-- The concrete pre-state of the C1 counterexample: cash 10, one position
of 1 share at price 3.0049 (market value rounds to 3.00 at construction). -/
def cex1_s : Stock := Stock.init "A" (30049 / 10000) 1

/-- The C1 counterexample portfolio before `update_worth`. -/
def cex1_pf : Portfolio :=
  { cash := 10, worth := 0, positions := [cex1_s],
    worth_history := [], trades := [], date := "d0" }

/-- Concrete filing index used to witness C8. -/
def c8_index : List FilingRecord :=
  [⟨"10-Q", "2023-09-30", "a"⟩, ⟨"8-K", "2023-08-01", "b"⟩, ⟨"10-K", "2022-12-31", "c"⟩]

/-- Concrete state for C3: worth 100, price 10 (ceiling 5), but 20 shares
already held — the 50% ceiling is exceeded before buying. -/
def c3_s : Stock := Stock.init "A" 10 20

/-- C3 portfolio: cash 50 ≥ price 10, worth 100. -/
def c3_pf : Portfolio :=
  { cash := 50, worth := 100, positions := [c3_s],
    worth_history := [], trades := [], date := "d" }

/-- Concrete state for C5: worth 100000, price 10, no shares held. -/
def c5_s : Stock := Stock.init "A" 10 0

/-- C5 portfolio: cash 60000 affords 6000 shares; the ceiling is 5000. -/
def c5_pf : Portfolio :=
  { cash := 60000, worth := 100000, positions := [c5_s],
    worth_history := [], trades := [], date := "d" }

/-- Concrete state for C6 (selling): worth 100000, price 10, 600 shares. -/
def c6_s : Stock := Stock.init "A" 10 600

/-- C6 portfolio around `c6_s`; the 5% floor target is 500. -/
def c6_pf : Portfolio :=
  { cash := 250, worth := 100000, positions := [c6_s],
    worth_history := [], trades := [], date := "d" }

/-- Concrete state for the C6 no-op case: already exactly at the floor. -/
def c6_noop_s : Stock := Stock.init "A" 10 500

/-- C6 no-op portfolio around `c6_noop_s`. -/
def c6_noop_pf : Portfolio :=
  { cash := 250, worth := 100000, positions := [c6_noop_s],
    worth_history := [], trades := [], date := "d" }

/-! ### Evaluation helpers

Concrete rational arithmetic does not reduce definitionally (rational
normalisation is not a kernel-accelerated operation), so floors and
roundings are evaluated through the following lemmas and `norm_num`. -/

lemma floorQ_eq {x : ℚ} {n : ℤ} (h1 : (n : ℚ) ≤ x) (h2 : x < n + 1) : ⌊x⌋ = n :=
  Int.floor_eq_iff.mpr ⟨h1, h2⟩

lemma round2_eq {x t : ℚ} (n : ℤ) (h1 : (n : ℚ) ≤ 100 * x + 1 / 2)
    (h2 : 100 * x + 1 / 2 < n + 1) (h3 : (n : ℚ) / 100 = t) : round2 x = t := by
  unfold round2
  rw [round_eq, floorQ_eq h1 h2, h3]

lemma buy_stock_eval (pf : Portfolio) (s : Stock) (hle : s.price ≤ pf.cash) :
    Portfolio.buy_stock pf s =
      (let bought : ℤ :=
        if ⌊pf.worth * Portfolio.MAX / s.price⌋ < ⌊pf.cash / s.price⌋ + s.quantity
        then ⌊pf.worth * Portfolio.MAX / s.price⌋ - s.quantity
        else ⌊pf.cash / s.price⌋
      { pf with
        positions := pf.positions.map (fun x => if x.ticker == s.ticker then
          ({ s.update_quantity (bought + s.quantity) with
             trades := dictSet s.trades pf.date (s.price, bought) } : Stock) else x),
        cash := round2 (pf.cash - s.price * (bought : ℚ)),
        trades := dictSet pf.trades pf.date
          (dictSet ((dictGet pf.trades pf.date).getD []) s.ticker (s.price, bought)) }) := by
  unfold Portfolio.buy_stock
  rw [if_pos hle]

lemma buy_stock_noop (pf : Portfolio) (s : Stock) (h : pf.cash < s.price) :
    Portfolio.buy_stock pf s = pf := by
  unfold Portfolio.buy_stock
  rw [if_neg (not_le.mpr h)]

lemma sell_stock_noop (pf : Portfolio) (s : Stock)
    (h : s.quantity ≤ ⌊pf.worth * Portfolio.MIN / s.price⌋) :
    Portfolio.sell_stock pf s = pf := by
  unfold Portfolio.sell_stock
  rw [if_pos h]

lemma sell_stock_eval (pf : Portfolio) (s : Stock)
    (h : ⌊pf.worth * Portfolio.MIN / s.price⌋ < s.quantity) :
    Portfolio.sell_stock pf s =
      { pf with
        positions := pf.positions.map (fun x => if x.ticker == s.ticker then
          ({ s.update_quantity ⌊pf.worth * Portfolio.MIN / s.price⌋ with
             trades := dictSet s.trades pf.date
               (s.price, -(s.quantity - ⌊pf.worth * Portfolio.MIN / s.price⌋)) } : Stock) else x),
        cash := round2 (pf.cash +
          s.price * ((s.quantity - ⌊pf.worth * Portfolio.MIN / s.price⌋ : ℤ) : ℚ)),
        trades := dictSet pf.trades pf.date
          (dictSet ((dictGet pf.trades pf.date).getD []) s.ticker
            (s.price, -(s.quantity - ⌊pf.worth * Portfolio.MIN / s.price⌋))) } := by
  unfold Portfolio.sell_stock
  rw [if_neg (not_le.mpr h)]

lemma buy_worth_eq (pf : Portfolio) (s : Stock) :
    (Portfolio.buy_stock pf s).worth = pf.worth := by
  unfold Portfolio.buy_stock
  split <;> rfl

lemma sell_worth_eq (pf : Portfolio) (s : Stock) :
    (Portfolio.sell_stock pf s).worth = pf.worth := by
  unfold Portfolio.sell_stock
  dsimp only
  split <;> rfl

lemma buy_cash_eval (pf : Portfolio) (s : Stock) (hle : s.price ≤ pf.cash) (b : ℤ)
    (hb : boughtQty pf s = b) :
    (Portfolio.buy_stock pf s).cash = round2 (pf.cash - s.price * (b : ℚ)) := by
  rw [buy_stock_eval pf s hle]
  rw [← hb]
  rfl

lemma buy_positions_eval (pf : Portfolio) (s : Stock) (hle : s.price ≤ pf.cash) (b : ℤ)
    (hb : boughtQty pf s = b) :
    (Portfolio.buy_stock pf s).positions =
      pf.positions.map (fun x => if x.ticker == s.ticker then
        ({ s.update_quantity (b + s.quantity) with
           trades := dictSet s.trades pf.date (s.price, b) } : Stock) else x) := by
  rw [buy_stock_eval pf s hle]
  rw [← hb]
  rfl

lemma buy_trades_eval (pf : Portfolio) (s : Stock) (hle : s.price ≤ pf.cash) (b : ℤ)
    (hb : boughtQty pf s = b) :
    (Portfolio.buy_stock pf s).trades =
      dictSet pf.trades pf.date
        (dictSet ((dictGet pf.trades pf.date).getD []) s.ticker (s.price, b)) := by
  rw [buy_stock_eval pf s hle]
  rw [← hb]
  rfl

lemma sell_cash_eval (pf : Portfolio) (s : Stock)
    (h : ⌊pf.worth * Portfolio.MIN / s.price⌋ < s.quantity) :
    (Portfolio.sell_stock pf s).cash =
      round2 (pf.cash +
        s.price * ((s.quantity - ⌊pf.worth * Portfolio.MIN / s.price⌋ : ℤ) : ℚ)) := by
  rw [sell_stock_eval pf s h]

lemma sell_positions_eval (pf : Portfolio) (s : Stock)
    (h : ⌊pf.worth * Portfolio.MIN / s.price⌋ < s.quantity) :
    (Portfolio.sell_stock pf s).positions =
      pf.positions.map (fun x => if x.ticker == s.ticker then
        ({ s.update_quantity ⌊pf.worth * Portfolio.MIN / s.price⌋ with
           trades := dictSet s.trades pf.date
             (s.price, -(s.quantity - ⌊pf.worth * Portfolio.MIN / s.price⌋)) } : Stock)
        else x) := by
  rw [sell_stock_eval pf s h]

lemma sell_trades_eval (pf : Portfolio) (s : Stock)
    (h : ⌊pf.worth * Portfolio.MIN / s.price⌋ < s.quantity) :
    (Portfolio.sell_stock pf s).trades =
      dictSet pf.trades pf.date
        (dictSet ((dictGet pf.trades pf.date).getD []) s.ticker
          (s.price, -(s.quantity - ⌊pf.worth * Portfolio.MIN / s.price⌋))) := by
  rw [sell_stock_eval pf s h]

lemma find?_map_replace (l : List Stock) (tk : String) (s s' : Stock)
    (hf : l.find? (fun x => x.ticker == tk) = some s) (h' : s'.ticker = tk) :
    (l.map (fun x => if x.ticker == tk then s' else x)).find?
      (fun x => x.ticker == tk) = some s' := by
  induction l with
  | nil => simp at hf
  | cons a l ih =>
    by_cases ha : (a.ticker == tk) = true
    · rw [List.map_cons, if_pos ha]
      have hp : (s' :: l.map (fun x => if x.ticker == tk then s' else x)).find?
          (fun x => x.ticker == tk) = some s' :=
        List.find?_cons_of_pos _ (by simp [h'])
      exact hp
    · have h1 : (a :: l).find? (fun x => x.ticker == tk) =
          l.find? (fun x => x.ticker == tk) := List.find?_cons_of_neg l ha
      rw [h1] at hf
      rw [List.map_cons, if_neg ha]
      have h2 : (a :: l.map (fun x => if x.ticker == tk then s' else x)).find?
          (fun x => x.ticker == tk) =
          (l.map (fun x => if x.ticker == tk then s' else x)).find?
            (fun x => x.ticker == tk) :=
        List.find?_cons_of_neg _ ha
      rw [h2]
      exact ih hf

lemma parseUnsignedFloat_eq_two (t ip fp : List Char)
    (h : Data.splitOnChar '.' t = [ip, fp])
    (h1 : (ip.isEmpty && fp.isEmpty) = false)
    (h2 : (ip.all (fun c => c.isDigit) && fp.all (fun c => c.isDigit)) = true) :
    Data.parseUnsignedFloat t =
      some ((Data.digitsToNat ip : ℚ) + (Data.digitsToNat fp : ℚ) / (10 : ℚ) ^ fp.length) := by
  unfold Data.parseUnsignedFloat
  rw [h]
  show (if (ip.isEmpty && fp.isEmpty) = true then none
        else if ((ip.all fun c => c.isDigit) && fp.all fun c => c.isDigit) = true then
          some ((Data.digitsToNat ip : ℚ) + (Data.digitsToNat fp : ℚ) / (10 : ℚ) ^ fp.length)
        else none) = _
  rw [if_neg (by simp [h1]), if_pos h2]

/-! ### Claim theorems -/

/-- C4 (amended): construction sets `marketValue = round(price × quantity, 2)`;
`updatePrice` and `updateQuantity` recompute it as the exact, unrounded
product `price × quantity`, so it equals the rounded product only when that
product has at most 2 decimals. -/
theorem position_market_value :
    (∀ (tk : String) (p : ℚ) (q : ℤ),
      (Stock.init tk p q).position = round2 (p * (q : ℚ))) ∧
    (∀ (s : Stock) (p : ℚ),
      (s.update_price p).position = p * (s.quantity : ℚ)) ∧
    (∀ (s : Stock) (q : ℤ),
      (s.update_quantity q).position = (q : ℚ) * s.price) :=
  ⟨fun _ _ _ => rfl, fun _ _ => rfl, fun _ _ => rfl⟩

/-- C4 (counterexample): after `updatePrice 1.006` on a quantity-1 position,
`marketValue` is `1.006`, not `round(price × quantity, 2) = 1.01`. -/
theorem position_market_value_cex :
    ((Stock.init "A" 0 1).update_price (1006 / 1000)).position ≠
      round2 (((Stock.init "A" 0 1).update_price (1006 / 1000)).price *
        ((((Stock.init "A" 0 1).update_price (1006 / 1000)).quantity : ℤ) : ℚ)) := by
  show (1006 / 1000 : ℚ) * ((1 : ℤ) : ℚ) ≠
    round2 ((1006 / 1000 : ℚ) * ((1 : ℤ) : ℚ))
  rw [round2_eq 101 (by norm_num) (by norm_num) (by norm_num : ((101 : ℤ) : ℚ) / 100 = 101 / 100)]
  norm_num

/-- C1 (amended): `updateWorth` and `updatePrices` establish
`worth = round(cash + Σ marketValue, 2)` unconditionally; `buyStock` and
`sellStock` never touch the `worth` field, so the equality can fail after
them (the stored worth goes stale). -/
theorem worth_invariant_amended :
    (∀ pf : Portfolio, (Portfolio.update_worth pf).worth =
      round2 (Portfolio.sumPositions (Portfolio.update_worth pf) +
        (Portfolio.update_worth pf).cash)) ∧
    (∀ (pf : Portfolio) (np : String → ℚ), (Portfolio.update_prices pf np).worth =
      round2 (Portfolio.sumPositions (Portfolio.update_prices pf np) +
        (Portfolio.update_prices pf np).cash)) ∧
    (∀ (pf : Portfolio) (s : Stock), (Portfolio.buy_stock pf s).worth = pf.worth) ∧
    (∀ (pf : Portfolio) (s : Stock), (Portfolio.sell_stock pf s).worth = pf.worth) :=
  ⟨fun _ => rfl, fun _ _ => rfl, buy_worth_eq, sell_worth_eq⟩

/-- C1 (counterexample): starting from cash 10 and one 1-share position at
price 3.0049, `update_worth` stores worth 13.00; the subsequent `buy_stock`
(which buys 1 share and rounds the cash debit) leaves
`cash + Σ marketValue = 13.0098`, whose rounding 13.01 differs from the
stored worth — so the claimed invariant fails right after `buyStock`. -/
theorem worth_invariant_cex :
    (Portfolio.buy_stock (Portfolio.update_worth cex1_pf) cex1_s).worth ≠
      round2 (Portfolio.sumPositions
          (Portfolio.buy_stock (Portfolio.update_worth cex1_pf) cex1_s) +
        (Portfolio.buy_stock (Portfolio.update_worth cex1_pf) cex1_s).cash) := by
  have hpos : cex1_s.position = 3 := by
    show round2 ((30049 / 10000 : ℚ) * ((1 : ℤ) : ℚ)) = 3
    exact round2_eq 300 (by norm_num) (by norm_num) (by norm_num)
  have hworth1 : (Portfolio.update_worth cex1_pf).worth = 13 := by
    show round2 (Portfolio.sumPositions cex1_pf + cex1_pf.cash) = 13
    have hsum : Portfolio.sumPositions cex1_pf = 3 := by
      show (0 : ℚ) + cex1_s.position = 3
      rw [hpos]
      norm_num
    rw [hsum]
    show round2 ((3 : ℚ) + 10) = 13
    exact round2_eq 1300 (by norm_num) (by norm_num) (by norm_num)
  have hle : cex1_s.price ≤ (Portfolio.update_worth cex1_pf).cash := by
    show (30049 / 10000 : ℚ) ≤ 10
    norm_num
  have hb : boughtQty (Portfolio.update_worth cex1_pf) cex1_s = 1 := by
    unfold boughtQty
    have hmx : ⌊(Portfolio.update_worth cex1_pf).worth * Portfolio.MAX / cex1_s.price⌋ = 2 := by
      rw [hworth1]
      show ⌊(13 : ℚ) * Portfolio.MAX / (30049 / 10000 : ℚ)⌋ = 2
      unfold Portfolio.MAX
      exact floorQ_eq (by norm_num) (by norm_num)
    have hb0 : ⌊(Portfolio.update_worth cex1_pf).cash / cex1_s.price⌋ = 3 := by
      show ⌊(10 : ℚ) / (30049 / 10000 : ℚ)⌋ = 3
      exact floorQ_eq (by norm_num) (by norm_num)
    rw [hmx, hb0]
    show (if (2 : ℤ) < 3 + (1 : ℤ) then (2 : ℤ) - 1 else 3) = 1
    norm_num
  have hcash2 : (Portfolio.buy_stock (Portfolio.update_worth cex1_pf) cex1_s).cash = 7 := by
    rw [buy_cash_eval _ _ hle 1 hb]
    show round2 ((10 : ℚ) - (30049 / 10000 : ℚ) * ((1 : ℤ) : ℚ)) = 7
    exact round2_eq 700 (by norm_num) (by norm_num) (by norm_num)
  have hsum2 : Portfolio.sumPositions
      (Portfolio.buy_stock (Portfolio.update_worth cex1_pf) cex1_s) = 60098 / 10000 := by
    unfold Portfolio.sumPositions
    rw [buy_positions_eval _ _ hle 1 hb]
    rw [show (Portfolio.update_worth cex1_pf).positions = [cex1_s] from rfl]
    rw [List.map_cons, List.map_nil,
      if_pos (by simp : (cex1_s.ticker == cex1_s.ticker) = true)]
    rw [List.foldl_cons, List.foldl_nil]
    show (0 : ℚ) + ((1 + 1 : ℤ) : ℚ) * (30049 / 10000 : ℚ) = 60098 / 10000
    push_cast
    norm_num
  rw [buy_worth_eq, hworth1, hsum2, hcash2]
  rw [round2_eq 1301 (by norm_num) (by norm_num)
    (by norm_num : ((1301 : ℤ) : ℚ) / 100 = 1301 / 100)]
  norm_num

/-- C2 (code evaluation): the value step parses `"(1,234.56)"` to the float
`-1234.56` and `"1,234"` / `"1,234.5"` to `1234` / `1234.5`, and an
unparsable token yields the explicit null — but the parenthesized integer
`"(1,234)"` parses to `+1234`, NOT `-1234`: the source's unary minus binds
only the `float` branch of the conditional expression, so parenthesized
integers are never negated. -/
theorem parse_value_eval :
    Data.parse_value "(1,234.56)" = some (PyNum.f (-(123456 / 100 : ℚ))) ∧
    Data.parse_value "1,234" = some (PyNum.i 1234) ∧
    Data.parse_value "1,234.5" = some (PyNum.f (12345 / 10 : ℚ)) ∧
    Data.parse_value "n/a" = none ∧
    Data.parse_value "(1,234)" = some (PyNum.i 1234) := by
  refine ⟨?_, by decide, ?_, by decide, by decide⟩
  · unfold Data.parse_value
    rw [if_pos (by decide : ("(1,234.56)".toList.contains '(') = true),
        if_pos (by decide : ("(1,234.56)".toList.contains '.') = true)]
    rw [show Data.stripNegChars ("(1,234.56)".toList) = "1234.56".toList by decide]
    rw [show Data.float_of_chars "1234.56".toList =
      Data.parseUnsignedFloat "1234.56".toList from rfl]
    rw [parseUnsignedFloat_eq_two _ "1234".toList "56".toList
      (by decide) (by decide) (by decide)]
    rw [show Data.digitsToNat "1234".toList = 1234 by decide,
        show Data.digitsToNat "56".toList = 56 by decide,
        show ("56".toList.length) = 2 by decide]
    rw [Option.map_some']
    norm_num
  · unfold Data.parse_value
    rw [if_neg (by decide : ¬("1,234.5".toList.contains '(') = true),
        if_pos (by decide : ("1,234.5".toList.contains '.') = true)]
    rw [show Data.stripCommas ("1,234.5".toList) = "1234.5".toList by decide]
    rw [show Data.float_of_chars "1234.5".toList =
      Data.parseUnsignedFloat "1234.5".toList from rfl]
    rw [parseUnsignedFloat_eq_two _ "1234".toList "5".toList
      (by decide) (by decide) (by decide)]
    rw [show Data.digitsToNat "1234".toList = 1234 by decide,
        show Data.digitsToNat "5".toList = 5 by decide,
        show ("5".toList.length) = 1 by decide]
    rw [Option.map_some']
    norm_num

/-- C8: after a successful fetch, the stored filing index holds only
`10-Q`/`10-K` records drawn from the response, is the reversal of the
newest-first filtered order truncated (`tail`) to the 25 most recent
records, and hence never exceeds 25 entries. -/
theorem filter_metadata_spec :
    ∀ (l : List FilingRecord) (r : FilingRecord),
      (r ∈ Data.filter_metadata l → (r.form = "10-Q" ∨ r.form = "10-K") ∧ r ∈ l) ∧
      (Data.filter_metadata l).length ≤ 25 ∧
      Data.filter_metadata l =
        Data.lastN 25 ((l.filter (fun x => x.form == "10-K" || x.form == "10-Q")).reverse) := by
  intro l r
  refine ⟨?_, ?_, rfl⟩
  · intro hm
    unfold Data.filter_metadata Data.lastN at hm
    have hsub : r ∈ (l.filter (fun x => x.form == "10-K" || x.form == "10-Q")).reverse :=
      (List.drop_sublist _ _).mem hm
    rw [List.mem_reverse] at hsub
    have hmf := List.mem_filter.mp hsub
    have hp := hmf.2
    simp only [Bool.or_eq_true, beq_iff_eq] at hp
    exact ⟨Or.symm hp, hmf.1⟩
  · unfold Data.filter_metadata Data.lastN
    rw [List.length_drop]
    omega

/-- C8 (witness): on a concrete 3-record index, the retained `10-K` record
fits the spec's filter-and-membership property. -/
theorem filter_metadata_spec_witness :
    (((⟨"10-K", "2022-12-31", "c"⟩ : FilingRecord).form = "10-Q" ∨
      (⟨"10-K", "2022-12-31", "c"⟩ : FilingRecord).form = "10-K") ∧
     (⟨"10-K", "2022-12-31", "c"⟩ : FilingRecord) ∈ c8_index) :=
  (filter_metadata_spec c8_index ⟨"10-K", "2022-12-31", "c"⟩).1 (by decide)

/-- C9: the identifier resolver returns the `cik_str` of the first row whose
`ticker` column equals the queried ticker exactly (with unique tickers, THE
matching row); when no row matches it fails (`none`, the uncaught
`IndexError`, a `LookupError`, from `.iat[0]`). -/
theorem get_cik_spec :
    ∀ (table : List (String × String)) (t : String),
      ((∀ p ∈ table, p.1 ≠ t) → Data.get_cik t table = none) ∧
      (∀ c : String, (t, c) ∈ table →
        ∃ c', Data.get_cik t table = some c' ∧ (t, c') ∈ table) ∧
      (∀ c : String, (table.map Prod.fst).Nodup → (t, c) ∈ table →
        Data.get_cik t table = some c) := by
  intro table t
  refine ⟨?_, ?_, ?_⟩
  · intro habs
    unfold Data.get_cik
    have : table.filter (fun p => p.1 == t) = [] := by
      rw [List.filter_eq_nil_iff]
      intro p hp
      simpa using habs p hp
    rw [this]
    rfl
  · intro c hm
    have hin : (t, c) ∈ table.filter (fun p => p.1 == t) :=
      List.mem_filter.mpr ⟨hm, by simp⟩
    unfold Data.get_cik
    cases hf : table.filter (fun p => p.1 == t) with
    | nil => rw [hf] at hin; simp at hin
    | cons a rest =>
      have hafilter : a ∈ table.filter (fun p => p.1 == t) := by
        rw [hf]; exact List.mem_cons_self a rest
      obtain ⟨hat, hpt⟩ := List.mem_filter.mp hafilter
      obtain ⟨a1, a2⟩ := a
      have ha1 : a1 = t := by simpa using hpt
      subst ha1
      exact ⟨a2, rfl, hat⟩
  · intro c hnd hm
    induction table with
    | nil => simp at hm
    | cons p rest ih =>
      rw [List.map_cons, List.nodup_cons] at hnd
      rcases List.mem_cons.mp hm with heq | hrest
      · unfold Data.get_cik
        rw [List.filter_cons, if_pos (by rw [← heq]; simp)]
        rw [← heq]
        rfl
      · have hp1 : p.1 ≠ t := by
          intro heq1
          exact hnd.1 (by rw [heq1]; exact List.mem_map_of_mem Prod.fst hrest)
        unfold Data.get_cik
        rw [List.filter_cons, if_neg (by simpa using hp1)]
        exact ih hnd.2 hrest

/-- C9 (witness): the resolver finds the exact identifier in a concrete
two-row table. -/
theorem get_cik_spec_witness :
    Data.get_cik "MSFT" [("AAPL", "320193"), ("MSFT", "789019")] = some "789019" :=
  (get_cik_spec [("AAPL", "320193"), ("MSFT", "789019")] "MSFT").2.2 "789019"
    (by decide) (by decide)

/-- C10: `process_filings` unconditionally indexes the first two filing
records: with fewer than two records it raises an out-of-bounds error
(`none`) instead of completing; with at least two records it completes, and
its result only depends on the first two records (`take 2`). -/
theorem process_filings_spec :
    ∀ (α : Type) (parse : String → α) (l : List FilingRecord),
      (l.length < 2 → Data.process_filings parse l = none) ∧
      (2 ≤ l.length → ∃ d, Data.process_filings parse l = some d) ∧
      Data.process_filings parse l = Data.process_filings parse (l.take 2) := by
  intro α parse l
  match l with
  | [] => exact ⟨fun _ => rfl, fun h => by simp at h, rfl⟩
  | [a] => exact ⟨fun _ => rfl, fun h => by simp at h, rfl⟩
  | a :: b :: rest =>
    refine ⟨fun h => by simp at h; omega, fun _ => ⟨_, rfl⟩, rfl⟩

/-- C10 (witness): a one-record index makes `process_filings` fail; a
two-record index completes. -/
theorem process_filings_spec_witness :
    Data.process_filings (fun _ => (0 : ℕ)) [⟨"10-Q", "2023-09-30", "a1"⟩] = none ∧
    ∃ d, Data.process_filings (fun _ => (0 : ℕ))
      [⟨"10-Q", "2023-09-30", "a1"⟩, ⟨"10-K", "2022-12-31", "a2"⟩] = some d :=
  ⟨(process_filings_spec ℕ (fun _ => 0) [⟨"10-Q", "2023-09-30", "a1"⟩]).1 (by decide),
   (process_filings_spec ℕ (fun _ => 0)
     [⟨"10-Q", "2023-09-30", "a1"⟩, ⟨"10-K", "2022-12-31", "a2"⟩]).2.1 (by decide)⟩
lemma find?_pair_overwrite {β : Type} (l : List (String × β)) (k : String) (v : β)
    (hany : l.any (fun p => p.1 == k) = true) :
    (l.map (fun p => if p.1 == k then (k, v) else p)).find?
      (fun p => p.1 == k) = some (k, v) := by
  induction l with
  | nil => simp at hany
  | cons a l ih =>
    by_cases ha : (a.1 == k) = true
    · rw [List.map_cons, if_pos ha]
      have : ((k, v) :: l.map (fun p => if p.1 == k then (k, v) else p)).find?
          (fun p => p.1 == k) = some (k, v) :=
        List.find?_cons_of_pos _ (by simp)
      exact this
    · rw [List.any_cons] at hany
      have hl : l.any (fun p => p.1 == k) = true := by
        rcases Bool.or_eq_true_iff.mp hany with h | h
        · exact absurd h ha
        · exact h
      rw [List.map_cons, if_neg ha]
      have hskip : (a :: l.map (fun p => if p.1 == k then (k, v) else p)).find?
          (fun p => p.1 == k) =
          (l.map (fun p => if p.1 == k then (k, v) else p)).find?
            (fun p => p.1 == k) :=
        List.find?_cons_of_neg _ ha
      rw [hskip]
      exact ih hl

lemma find?_append_left_none {β : Type} (l₁ l₂ : List β) (p : β → Bool)
    (h : l₁.find? p = none) : (l₁ ++ l₂).find? p = l₂.find? p := by
  induction l₁ with
  | nil => rfl
  | cons a l ih =>
    have ha : ¬p a = true := by
      intro hpa
      rw [List.find?_cons_of_pos l hpa] at h
      exact Option.noConfusion h
    rw [List.find?_cons_of_neg l ha] at h
    have : ((a :: l) ++ l₂).find? p = (l ++ l₂).find? p :=
      List.find?_cons_of_neg (l ++ l₂) ha
    rw [this]
    exact ih h

/-- `d[k] = v` followed by `d[k]` reads back `v`. -/
lemma dictGet_dictSet_self {β : Type} (l : List (String × β)) (k : String) (v : β) :
    dictGet (dictSet l k v) k = some v := by
  unfold dictGet dictSet
  by_cases hany : l.any (fun p => p.1 == k) = true
  · rw [if_pos hany, find?_pair_overwrite l k v hany]
    rfl
  · rw [if_neg hany]
    have hnone : l.find? (fun p => p.1 == k) = none := by
      rw [List.find?_eq_none]
      intro x hx hpx
      exact hany (List.any_eq_true.mpr ⟨x, hx, hpx⟩)
    rw [find?_append_left_none _ _ _ hnone]
    have : ([(k, v)] : List (String × β)).find? (fun p => p.1 == k) = some (k, v) :=
      List.find?_cons_of_pos _ (by simp)
    rw [this]
    rfl

/-- C5: when `cash ≥ price` and the clamped amount
`min(floor(cash/price), floor(worth·0.5/price) − quantity)` is non-negative,
`buy_stock` buys exactly that amount — the position's quantity grows by it
and cash is debited by `price × amount`, rounded to 2 decimals; when
`cash < price`, `buy_stock` is a no-op (not an error). -/
theorem buy_stock_clamp :
    ∀ (pf : Portfolio) (s : Stock),
      (pf.cash < s.price → Portfolio.buy_stock pf s = pf) ∧
      (s.price ≤ pf.cash →
        0 ≤ min ⌊pf.cash / s.price⌋ (⌊pf.worth * Portfolio.MAX / s.price⌋ - s.quantity) →
        Portfolio.getPos pf s.ticker = some s →
        ∃ s', Portfolio.getPos (Portfolio.buy_stock pf s) s.ticker = some s' ∧
          s'.quantity = s.quantity +
            min ⌊pf.cash / s.price⌋ (⌊pf.worth * Portfolio.MAX / s.price⌋ - s.quantity) ∧
          (Portfolio.buy_stock pf s).cash =
            round2 (pf.cash - s.price *
              ((min ⌊pf.cash / s.price⌋
                (⌊pf.worth * Portfolio.MAX / s.price⌋ - s.quantity) : ℤ) : ℚ))) := by
  intro pf s
  constructor
  · exact buy_stock_noop pf s
  · intro hle _hmin hf
    have hbmin : boughtQty pf s =
        min ⌊pf.cash / s.price⌋ (⌊pf.worth * Portfolio.MAX / s.price⌋ - s.quantity) := by
      unfold boughtQty
      by_cases h : ⌊pf.worth * Portfolio.MAX / s.price⌋ < ⌊pf.cash / s.price⌋ + s.quantity
      · rw [if_pos h, min_eq_right (by omega)]
      · rw [if_neg h, min_eq_left (by omega)]
    refine ⟨{ s.update_quantity
        (min ⌊pf.cash / s.price⌋ (⌊pf.worth * Portfolio.MAX / s.price⌋ - s.quantity) +
          s.quantity) with
        trades := dictSet s.trades pf.date (s.price,
          min ⌊pf.cash / s.price⌋ (⌊pf.worth * Portfolio.MAX / s.price⌋ - s.quantity)) },
      ?_, ?_, ?_⟩
    · unfold Portfolio.getPos
      rw [buy_positions_eval pf s hle _ hbmin]
      unfold Portfolio.getPos at hf
      exact find?_map_replace _ _ s _ hf rfl
    · show min ⌊pf.cash / s.price⌋ (⌊pf.worth * Portfolio.MAX / s.price⌋ - s.quantity) +
        s.quantity = _
      omega
    · exact buy_cash_eval pf s hle _ hbmin

/-- C5 (witness): worth 100000, price 10, quantity 0, cash 60000 (6000
shares affordable): the buy clamps to 5000 shares and cash drops to 10000. -/
theorem buy_stock_clamp_witness :
    ∃ s', Portfolio.getPos (Portfolio.buy_stock c5_pf c5_s) "A" = some s' ∧
      s'.quantity = 5000 ∧ (Portfolio.buy_stock c5_pf c5_s).cash = 10000 := by
  have hfloor1 : ⌊c5_pf.cash / c5_s.price⌋ = (6000 : ℤ) := by
    show ⌊(60000 : ℚ) / 10⌋ = 6000
    exact floorQ_eq (by norm_num) (by norm_num)
  have hfloor2 : ⌊c5_pf.worth * Portfolio.MAX / c5_s.price⌋ = (5000 : ℤ) := by
    show ⌊(100000 : ℚ) * Portfolio.MAX / 10⌋ = 5000
    unfold Portfolio.MAX
    exact floorQ_eq (by norm_num) (by norm_num)
  have hmin : min ⌊c5_pf.cash / c5_s.price⌋
      (⌊c5_pf.worth * Portfolio.MAX / c5_s.price⌋ - c5_s.quantity) = (5000 : ℤ) := by
    rw [hfloor1, hfloor2]
    show min (6000 : ℤ) (5000 - 0) = 5000
    decide
  obtain ⟨s', h1, h2, h3⟩ := (buy_stock_clamp c5_pf c5_s).2
    (by show (10 : ℚ) ≤ 60000; norm_num)
    (by rw [hmin]; norm_num)
    rfl
  rw [hmin] at h2 h3
  refine ⟨s', h1, ?_, ?_⟩
  · rw [h2]
    show (0 : ℤ) + 5000 = 5000
    decide
  · rw [h3]
    show round2 ((60000 : ℚ) - 10 * ((5000 : ℤ) : ℚ)) = 10000
    exact round2_eq 1000000 (by norm_num) (by norm_num) (by norm_num)

/-- C6: `sell_stock` computes `target = floor(worth·0.05/price)`; at or
below the target it is a no-op; above it, it sets the quantity to the
target, credits cash by `price × (current − target)` rounded to 2 decimals,
and writes a ledger entry with a negative signed quantity delta. -/
theorem sell_stock_floor :
    ∀ (pf : Portfolio) (s : Stock),
      (s.quantity ≤ ⌊pf.worth * Portfolio.MIN / s.price⌋ →
        Portfolio.sell_stock pf s = pf) ∧
      (⌊pf.worth * Portfolio.MIN / s.price⌋ < s.quantity →
        Portfolio.getPos pf s.ticker = some s →
        ∃ s', Portfolio.getPos (Portfolio.sell_stock pf s) s.ticker = some s' ∧
          s'.quantity = ⌊pf.worth * Portfolio.MIN / s.price⌋ ∧
          (Portfolio.sell_stock pf s).cash =
            round2 (pf.cash + s.price *
              ((s.quantity - ⌊pf.worth * Portfolio.MIN / s.price⌋ : ℤ) : ℚ)) ∧
          dictGet ((dictGet (Portfolio.sell_stock pf s).trades pf.date).getD [])
              s.ticker =
            some (s.price, -(s.quantity - ⌊pf.worth * Portfolio.MIN / s.price⌋)) ∧
          -(s.quantity - ⌊pf.worth * Portfolio.MIN / s.price⌋) < 0) := by
  intro pf s
  constructor
  · exact sell_stock_noop pf s
  · intro hgt hf
    refine ⟨{ s.update_quantity ⌊pf.worth * Portfolio.MIN / s.price⌋ with
        trades := dictSet s.trades pf.date
          (s.price, -(s.quantity - ⌊pf.worth * Portfolio.MIN / s.price⌋)) },
      ?_, rfl, ?_, ?_, by omega⟩
    · unfold Portfolio.getPos
      rw [sell_positions_eval pf s hgt]
      unfold Portfolio.getPos at hf
      exact find?_map_replace _ _ s _ hf rfl
    · exact sell_cash_eval pf s hgt
    · rw [sell_trades_eval pf s hgt, dictGet_dictSet_self]
      exact dictGet_dictSet_self _ _ _

/-- C6 (witness): with worth 100000 and price 10 the target is 500 —
quantity 500 is a no-op; quantity 600 sells 100 down to 500, crediting
cash 250 → 1250. -/
theorem sell_stock_floor_witness :
    Portfolio.sell_stock c6_noop_pf c6_noop_s = c6_noop_pf ∧
    ∃ s', Portfolio.getPos (Portfolio.sell_stock c6_pf c6_s) "A" = some s' ∧
      s'.quantity = 500 ∧ (Portfolio.sell_stock c6_pf c6_s).cash = 1250 := by
  have ht1 : ⌊c6_pf.worth * Portfolio.MIN / c6_s.price⌋ = (500 : ℤ) := by
    show ⌊(100000 : ℚ) * Portfolio.MIN / 10⌋ = 500
    unfold Portfolio.MIN
    exact floorQ_eq (by norm_num) (by norm_num)
  have ht2 : ⌊c6_noop_pf.worth * Portfolio.MIN / c6_noop_s.price⌋ = (500 : ℤ) := by
    show ⌊(100000 : ℚ) * Portfolio.MIN / 10⌋ = 500
    unfold Portfolio.MIN
    exact floorQ_eq (by norm_num) (by norm_num)
  constructor
  · exact (sell_stock_floor c6_noop_pf c6_noop_s).1
      (by rw [ht2]; show (500 : ℤ) ≤ 500; decide)
  · obtain ⟨s', h1, h2, h3, _h4, _h5⟩ := (sell_stock_floor c6_pf c6_s).2
      (by rw [ht1]; show (500 : ℤ) < 600; decide) rfl
    refine ⟨s', h1, ?_, ?_⟩
    · rw [h2, ht1]
    · rw [h3, ht1]
      show round2 ((250 : ℚ) + 10 * ((600 - 500 : ℤ) : ℚ)) = 1250
      exact round2_eq 125000 (by norm_num) (by norm_num) (by norm_num)

/-- C3 (counterexample): worth 100, price 10 (ceiling 5), 20 shares held,
cash 50.  The claimed behaviour — buy zero, leave quantity and cash
unchanged — is false: `buy_stock` changes both. -/
theorem buy_stock_negative_clamp_cex :
    (Portfolio.buy_stock c3_pf c3_s).cash ≠ c3_pf.cash ∧
    Portfolio.getPos (Portfolio.buy_stock c3_pf c3_s) "A" ≠ some c3_s := by
  have hle : c3_s.price ≤ c3_pf.cash := by
    show (10 : ℚ) ≤ 50
    norm_num
  have hmx : ⌊c3_pf.worth * Portfolio.MAX / c3_s.price⌋ = (5 : ℤ) := by
    show ⌊(100 : ℚ) * Portfolio.MAX / 10⌋ = 5
    unfold Portfolio.MAX
    exact floorQ_eq (by norm_num) (by norm_num)
  have hb0 : ⌊c3_pf.cash / c3_s.price⌋ = (5 : ℤ) := by
    show ⌊(50 : ℚ) / 10⌋ = 5
    exact floorQ_eq (by norm_num) (by norm_num)
  have hb : boughtQty c3_pf c3_s = -15 := by
    unfold boughtQty
    rw [hmx, hb0]
    show (if (5 : ℤ) < 5 + 20 then 5 - 20 else 5) = -15
    decide
  constructor
  · rw [buy_cash_eval c3_pf c3_s hle _ hb]
    have hcash : round2 (c3_pf.cash - c3_s.price * ((-15 : ℤ) : ℚ)) = 200 := by
      show round2 ((50 : ℚ) - 10 * ((-15 : ℤ) : ℚ)) = 200
      exact round2_eq 20000 (by norm_num) (by norm_num) (by norm_num)
    rw [hcash]
    show (200 : ℚ) ≠ 50
    norm_num
  · have hpos2 : Portfolio.getPos (Portfolio.buy_stock c3_pf c3_s) "A" =
        some ({ c3_s.update_quantity ((-15) + 20) with
          trades := dictSet c3_s.trades c3_pf.date (c3_s.price, -15) }) := by
      unfold Portfolio.getPos
      rw [buy_positions_eval c3_pf c3_s hle _ hb]
      exact find?_map_replace _ "A" c3_s _ rfl rfl
    rw [hpos2]
    intro heq
    exact absurd
      (show ((-15 : ℤ) + 20) = (20 : ℤ) from
        congrArg Stock.quantity (Option.some.inj heq))
      (by decide)

/-- C3 (amended): when `cash ≥ price > 0` and the 50% ceiling is already
exceeded (`floor(worth·0.5/price) − quantity < 0`), `buy_stock` applies the
negative clamp as-is: it SELLS the position down to the ceiling — the
quantity becomes `floor(worth·0.5/price)` and cash is CREDITED by
`price × (quantity − ceiling)`, rounded to 2 decimals. -/
theorem buy_stock_negative_clamp :
    ∀ (pf : Portfolio) (s : Stock),
      0 < s.price → s.price ≤ pf.cash →
      ⌊pf.worth * Portfolio.MAX / s.price⌋ - s.quantity < 0 →
      Portfolio.getPos pf s.ticker = some s →
      ∃ s', Portfolio.getPos (Portfolio.buy_stock pf s) s.ticker = some s' ∧
        s'.quantity = ⌊pf.worth * Portfolio.MAX / s.price⌋ ∧
        (Portfolio.buy_stock pf s).cash =
          round2 (pf.cash + s.price *
            ((s.quantity - ⌊pf.worth * Portfolio.MAX / s.price⌋ : ℤ) : ℚ)) := by
  intro pf s hpos hle hneg hf
  have hb0 : 1 ≤ ⌊pf.cash / s.price⌋ := by
    rw [Int.le_floor]
    push_cast
    rw [one_le_div hpos]
    exact hle
  have hb : boughtQty pf s = ⌊pf.worth * Portfolio.MAX / s.price⌋ - s.quantity := by
    unfold boughtQty
    rw [if_pos (by omega)]
  refine ⟨{ s.update_quantity
      ((⌊pf.worth * Portfolio.MAX / s.price⌋ - s.quantity) + s.quantity) with
      trades := dictSet s.trades pf.date
        (s.price, ⌊pf.worth * Portfolio.MAX / s.price⌋ - s.quantity) }, ?_, ?_, ?_⟩
  · unfold Portfolio.getPos
    rw [buy_positions_eval pf s hle _ hb]
    unfold Portfolio.getPos at hf
    exact find?_map_replace _ _ s _ hf rfl
  · show (⌊pf.worth * Portfolio.MAX / s.price⌋ - s.quantity) + s.quantity = _
    omega
  · rw [buy_cash_eval pf s hle _ hb]
    congr 1
    push_cast
    ring

/-- C3 (witness): at the counterexample state the negative clamp sells 15
shares: quantity 20 → 5 (the ceiling) and cash 50 → 200. -/
theorem buy_stock_negative_clamp_witness :
    ∃ s', Portfolio.getPos (Portfolio.buy_stock c3_pf c3_s) "A" = some s' ∧
      s'.quantity = 5 ∧ (Portfolio.buy_stock c3_pf c3_s).cash = 200 := by
  have hmx : ⌊c3_pf.worth * Portfolio.MAX / c3_s.price⌋ = (5 : ℤ) := by
    show ⌊(100 : ℚ) * Portfolio.MAX / 10⌋ = 5
    unfold Portfolio.MAX
    exact floorQ_eq (by norm_num) (by norm_num)
  obtain ⟨s', h1, h2, h3⟩ := buy_stock_negative_clamp c3_pf c3_s
    (by show (0 : ℚ) < 10; norm_num)
    (by show (10 : ℚ) ≤ 50; norm_num)
    (by rw [hmx]; show (5 : ℤ) - 20 < 0; decide)
    rfl
  refine ⟨s', h1, by rw [h2, hmx], ?_⟩
  rw [h3, hmx]
  show round2 ((50 : ℚ) + 10 * ((20 - 5 : ℤ) : ℚ)) = 200
  exact round2_eq 20000 (by norm_num) (by norm_num) (by norm_num)

lemma dictGet_none_of_any_false {β : Type} (d : List (String × β)) (t : String)
    (h : d.any (fun p => p.1 == t) = false) : dictGet d t = none := by
  unfold dictGet
  rw [List.find?_eq_none.mpr]
  · rfl
  · intro x hx hpx
    have hx2 : d.any (fun p => p.1 == t) = true := List.any_eq_true.mpr ⟨x, hx, hpx⟩
    rw [h] at hx2
    exact Bool.false_ne_true hx2

lemma dictGet_append_single_ne {β : Type} (d : List (String × β)) (k t : String)
    (v : β) (hkt : k ≠ t) : dictGet (d ++ [(k, v)]) t = dictGet d t := by
  unfold dictGet
  induction d with
  | nil =>
    have : (([] : List (String × β)) ++ [(k, v)]).find? (fun p => p.1 == t) = none := by
      rw [List.nil_append]
      exact List.find?_eq_none.mpr (by intro x hx; rw [List.mem_singleton] at hx; subst hx; simpa using hkt)
    rw [this]
    rfl
  | cons a rest ih =>
    by_cases ha : (a.1 == t) = true
    · have h1 : ((a :: rest) ++ [(k, v)]).find? (fun p => p.1 == t) = some a := by
        rw [List.cons_append]
        exact List.find?_cons_of_pos _ ha
      have h2 : (a :: rest).find? (fun p => p.1 == t) = some a :=
        List.find?_cons_of_pos _ ha
      rw [h1, h2]
    · have h1 : ((a :: rest) ++ [(k, v)]).find? (fun p => p.1 == t) =
          (rest ++ [(k, v)]).find? (fun p => p.1 == t) := by
        rw [List.cons_append]
        exact List.find?_cons_of_neg _ ha
      have h2 : (a :: rest).find? (fun p => p.1 == t) =
          rest.find? (fun p => p.1 == t) :=
        List.find?_cons_of_neg _ ha
      rw [h1, h2]
      exact ih

lemma dictGet_append_single_self {β : Type} (d : List (String × β)) (t : String)
    (v : β) (h : d.any (fun p => p.1 == t) = false) :
    dictGet (d ++ [(t, v)]) t = some v := by
  unfold dictGet
  have hnone : d.find? (fun p => p.1 == t) = none := by
    rw [List.find?_eq_none]
    intro x hx hpx
    have hx2 : d.any (fun p => p.1 == t) = true := List.any_eq_true.mpr ⟨x, hx, hpx⟩
    rw [h] at hx2
    exact Bool.false_ne_true hx2
  rw [find?_append_left_none _ _ _ hnone]
  have : ([(t, v)] : List (String × β)).find? (fun p => p.1 == t) = some (t, v) :=
    List.find?_cons_of_pos _ (by simp)
  rw [this]
  rfl

lemma any_append_single {β : Type} (d : List (String × β)) (k t : String) (v : β) :
    (d ++ [(k, v)]).any (fun p => p.1 == t) =
      (d.any (fun p => p.1 == t) || (k == t)) := by
  rw [List.any_append]
  simp [List.any_cons]

/-- A `step` for a metric other than `t` changes neither `t`'s entry nor its
presence. -/
lemma step_other (c : List String) (d : Metrics) (tv : String × List String)
    (t : String) (h : tv.1 ≠ t) :
    dictGet (Data.step c d tv) t = dictGet d t ∧
    (Data.step c d tv).any (fun p => p.1 == t) = d.any (fun p => p.1 == t) := by
  unfold Data.step
  split
  · split
    · exact ⟨rfl, rfl⟩
    · constructor
      · exact dictGet_append_single_ne d tv.1 t _ h
      · rw [any_append_single]
        have : (tv.1 == t) = false := by simpa using h
        rw [this, Bool.or_false]
  · exact ⟨rfl, rfl⟩

/-- Folding `step` over metrics none of which is `t` changes neither `t`'s
entry nor its presence. -/
lemma stepFold_other (ts : List (String × List String)) (c : List String)
    (t : String) :
    ∀ d : Metrics, (∀ tv ∈ ts, tv.1 ≠ t) →
      dictGet (ts.foldl (Data.step c) d) t = dictGet d t ∧
      (ts.foldl (Data.step c) d).any (fun p => p.1 == t) =
        d.any (fun p => p.1 == t) := by
  induction ts with
  | nil => exact fun d _ => ⟨rfl, rfl⟩
  | cons tv ts ih =>
    intro d h
    rw [List.foldl_cons]
    obtain ⟨hg, ha⟩ := step_other c d tv t (h tv (List.mem_cons_self tv ts))
    obtain ⟨ihg, iha⟩ := ih (Data.step c d tv)
      (fun tv' htv' => h tv' (List.mem_cons_of_mem _ htv'))
    exact ⟨ihg.trans hg, iha.trans ha⟩

lemma any_false_of_dictGet_none {β : Type} (d : List (String × β)) (t : String)
    (hd : dictGet d t = none) : d.any (fun p => p.1 == t) = false := by
  cases h2 : d.any (fun p => p.1 == t) with
  | false => rfl
  | true =>
    obtain ⟨x, hx, hpx⟩ := List.any_eq_true.mp h2
    unfold dictGet at hd
    rw [Option.map_eq_none'] at hd
    rw [List.find?_eq_none] at hd
    exact absurd hpx (hd x hx)

/-- Effect of a `step` for the metric `t` itself. -/
lemma step_self (c : List String) (d : Metrics) (t : String) (vars : List String) :
    dictGet (Data.step c d (t, vars)) t =
      (if d.any (fun p => p.1 == t) = true then dictGet d t
       else if vars.any (fun w => Data.containsSub w (c.headD "")) = true then
         some (Data.parse_value (c.getD 1 ""))
       else none) ∧
    (Data.step c d (t, vars)).any (fun p => p.1 == t) =
      (d.any (fun p => p.1 == t) ||
        vars.any (fun w => Data.containsSub w (c.headD ""))) := by
  unfold Data.step
  by_cases hm : (vars.any (fun w => Data.containsSub w (c.headD ""))) = true
  · rw [if_pos hm, hm, Bool.or_true]
    by_cases hc : (d.any (fun p => p.1 == t)) = true
    · rw [if_pos hc, if_pos hc]
      exact ⟨rfl, hc⟩
    · rw [if_neg hc, if_neg hc, if_pos rfl]
      constructor
      · exact dictGet_append_single_self d t _ (Bool.eq_false_iff.mpr hc)
      · rw [any_append_single]
        simp
  · rw [if_neg hm]
    constructor
    · by_cases hc : (d.any (fun p => p.1 == t)) = true
      · rw [if_pos hc]
      · rw [if_neg hc, if_neg hm]
        exact dictGet_none_of_any_false d t (Bool.eq_false_iff.mpr hc)
    · rw [(by simpa using hm :
        vars.any (fun w => Data.containsSub w (c.headD "")) = false), Bool.or_false]

/-- Effect of the whole term loop on metric `t`, when `(t, vars)` occurs in
a duplicate-free metric table. -/
lemma stepFold_mem (ts : List (String × List String)) (c : List String)
    (t : String) (vars : List String) :
    ∀ d : Metrics, (ts.map Prod.fst).Nodup → (t, vars) ∈ ts →
      dictGet (ts.foldl (Data.step c) d) t =
        (if d.any (fun p => p.1 == t) = true then dictGet d t
         else if vars.any (fun w => Data.containsSub w (c.headD "")) = true then
           some (Data.parse_value (c.getD 1 ""))
         else none) ∧
      (ts.foldl (Data.step c) d).any (fun p => p.1 == t) =
        (d.any (fun p => p.1 == t) ||
          vars.any (fun w => Data.containsSub w (c.headD ""))) := by
  induction ts with
  | nil => intro d _ hm; simp at hm
  | cons tv ts ih =>
    intro d hnd hm
    rw [List.map_cons, List.nodup_cons] at hnd
    rw [List.foldl_cons]
    rcases List.mem_cons.mp hm with heq | hmem
    · subst heq
      have hts : ∀ tv' ∈ ts, tv'.1 ≠ t := by
        intro tv' htv' heq'
        refine hnd.1 ?_
        show t ∈ ts.map Prod.fst
        rw [← heq']
        exact List.mem_map_of_mem Prod.fst htv'
      obtain ⟨hg, ha⟩ := stepFold_other ts c t (Data.step c d (t, vars)) hts
      obtain ⟨hg2, ha2⟩ := step_self c d t vars
      exact ⟨hg.trans hg2, ha.trans ha2⟩
    · have htv : tv.1 ≠ t := by
        intro heq'
        exact hnd.1 (heq' ▸ List.mem_map_of_mem Prod.fst hmem)
      obtain ⟨hg, ha⟩ := step_other c d tv t htv
      obtain ⟨ihg, iha⟩ := ih (Data.step c d tv) hnd.2 hmem
      constructor
      · rw [ihg, hg, ha]
      · rw [iha, ha]

/-- Effect of one row on metric `t`. -/
lemma process_cells_get (c : List String) (t : String) (vars : List String)
    (hm : (t, vars) ∈ Data.OIE_TERMS) (d : Metrics) :
    dictGet (Data.process_cells d c) t =
      (if d.any (fun p => p.1 == t) = true then dictGet d t
       else if Data.rowMatch vars c = true then
         some (Data.parse_value (c.getD 1 ""))
       else none) ∧
    (Data.process_cells d c).any (fun p => p.1 == t) =
      (d.any (fun p => p.1 == t) || Data.rowMatch vars c) := by
  unfold Data.process_cells Data.rowMatch
  by_cases hlen : c.length < 2
  · rw [if_pos hlen]
    have hfalse : (!decide (c.length < 2) &&
        vars.any (fun w => Data.containsSub w (c.headD ""))) = false := by
      simp [hlen]
    rw [hfalse]
    constructor
    · by_cases hc : (d.any (fun p => p.1 == t)) = true
      · rw [if_pos hc]
      · rw [if_neg hc, if_neg Bool.false_ne_true]
        exact dictGet_none_of_any_false d t (Bool.eq_false_iff.mpr hc)
    · rw [Bool.or_false]
  · rw [if_neg hlen]
    have htrue : (!decide (c.length < 2)) = true := by simp [hlen]
    obtain ⟨hg, ha⟩ := stepFold_mem Data.OIE_TERMS c t vars d (by decide) hm
    constructor
    · rw [hg, htrue, Bool.true_and]
    · rw [ha, htrue, Bool.true_and]

/-- The row loop records, for each metric, the value of the first matching
row (starting from an accumulator `d`). -/
lemma process_rows_aux (t : String) (vars : List String)
    (hm : (t, vars) ∈ Data.OIE_TERMS) :
    ∀ (rows : List (List String)) (d : Metrics),
      dictGet (rows.foldl Data.process_cells d) t =
        (match dictGet d t with
         | some v => some v
         | none => (rows.find? (Data.rowMatch vars)).map
             (fun c => Data.parse_value (c.getD 1 ""))) := by
  intro rows
  induction rows with
  | nil =>
    intro d
    cases hd : dictGet d t with
    | none => exact hd
    | some v => exact hd
  | cons c rows ih =>
    intro d
    rw [List.foldl_cons, ih (Data.process_cells d c)]
    obtain ⟨hg, ha⟩ := process_cells_get c t vars hm d
    cases hd : dictGet d t with
    | some v =>
      have hany : d.any (fun p => p.1 == t) = true := by
        cases h2 : d.any (fun p => p.1 == t) with
        | true => rfl
        | false =>
          rw [dictGet_none_of_any_false d t h2] at hd
          exact Option.noConfusion hd
      rw [hg, if_pos hany, hd]
    | none =>
      have hany : d.any (fun p => p.1 == t) = false :=
        any_false_of_dictGet_none d t hd
      rw [hg, if_neg (by rw [hany]; exact Bool.false_ne_true)]
      by_cases hrm : Data.rowMatch vars c = true
      · rw [if_pos hrm]
        have hfind : (c :: rows).find? (Data.rowMatch vars) = some c :=
          List.find?_cons_of_pos _ hrm
        rw [hfind]
        rfl
      · rw [if_neg hrm]
        have hfind : (c :: rows).find? (Data.rowMatch vars) =
            rows.find? (Data.rowMatch vars) :=
          List.find?_cons_of_neg _ hrm
        rw [hfind]

/-- C7: label matching is first-match-wins — for each of the five target
metrics, the recorded value is exactly that of the first table row (with at
least 2 surviving cells) whose label cell contains one of the metric's
variants; all later matching rows are ignored.  (`none` on the right means
no row matched.) -/
theorem first_match_wins :
    ∀ (term : String) (vars : List String), (term, vars) ∈ Data.OIE_TERMS →
      ∀ rows : List (List String),
        dictGet (Data.process_rows rows) term =
          (rows.find? (Data.rowMatch vars)).map
            (fun c => Data.parse_value (c.getD 1 "")) := by
  intro term vars hm rows
  unfold Data.process_rows
  rw [process_rows_aux term vars hm rows []]
  rfl

/-- C7 (witness): two rows both labelled with "net income" variants — only
the first row's value (100) is retained. -/
theorem first_match_wins_witness :
    dictGet (Data.process_rows
        [["net income", "100"], ["net income (loss)", "200"]]) "net income" =
      some (some (PyNum.i 100)) := by
  rw [first_match_wins "net income" ["net income", "net income (loss)", "net loss"]
    (by decide) [["net income", "100"], ["net income (loss)", "200"]]]
  decide
